import Mathlib

/-!
Verification of the LMMs4SDB raster-analysis scripts.

Each Python script is shallowly embedded: numpy float arrays become
functions `ℕ → ℚ` (exact arithmetic) together with an explicit length,
rasters and images become explicit structures, and calls into external
libraries (sklearn, scipy, rasterio, PIL) are embedded by their documented
closed-form semantics.  Definitions come first, all lemmas and theorems
follow.
-/

set_option maxHeartbeats 1000000

namespace LMMs4SDB

/-- A six-coefficient affine geotransform `(a, b, c, d, e, f)` mapping
pixel `(col, row)` to world `(x, y) = (a·col + b·row + c, d·col + e·row + f)`,
as in `rasterio.transform.Affine`. -/
structure Affine where
  a : ℚ
  b : ℚ
  c : ℚ
  d : ℚ
  e : ℚ
  f : ℚ
deriving DecidableEq

/-- Forward application of a geotransform to (fractional) pixel
coordinates. -/
def Affine.fwd (t : Affine) (col row : ℚ) : ℚ × ℚ :=
  (t.a * col + t.b * row + t.c, t.d * col + t.e * row + t.f)

/-- Determinant of the linear part of a geotransform. -/
def Affine.det (t : Affine) : ℚ := t.a * t.e - t.b * t.d

/-- Inverse application of a geotransform: world `(x, y)` back to
(fractional) pixel `(col, row)` (`~transform` in rasterio). -/
def Affine.inverse (t : Affine) (x y : ℚ) : ℚ × ℚ :=
  ((t.e * (x - t.c) - t.b * (y - t.f)) / t.det,
   (-t.d * (x - t.c) + t.a * (y - t.f)) / t.det)

/-! Accuracy Analyzer — src/analyze_result.py

`perform_quantitative_analysis` receives two equal-length 1-D arrays
(`predicted_flat`, `truth_flat`).  We embed an array of length `n` as a
function `ℕ → ℚ` whose values beyond `n` are irrelevant (every statistic
sums over `Finset.range n`).
-/

namespace AnalyzeResult

/-- Sum of the first `n` entries of a sequence, `∑_{i<n} f i`. -/
def S (n : ℕ) (f : ℕ → ℚ) : ℚ := ∑ i in Finset.range n, f i

/-- Embedding of `sklearn.linear_model.LinearRegression().fit(X, truth)`:
it computes the
ordinary least-squares slope; its closed form is
`(n·Σxy − Σx·Σy) / (n·Σx² − (Σx)²)`.  (For a constant regressor the
denominator is zero; `lstsq` then returns the minimum-norm solution, slope
`0`, which coincides with rational division-by-zero.) -/
def slope (n : ℕ) (x y : ℕ → ℚ) : ℚ :=
  ((n : ℚ) * S n (fun i => x i * y i) - S n x * S n y) /
    ((n : ℚ) * S n (fun i => x i ^ 2) - (S n x) ^ 2)

/-- The ordinary least-squares intercept `(Σy − m·Σx)/n` (sklearn's
`reg.intercept_`, i.e. `ȳ − m·x̄`). -/
def intercept (n : ℕ) (x y : ℕ → ℚ) : ℚ :=
  (S n y - slope n x y * S n x) / (n : ℚ)

/-- Embedding of `reg.predict(X)`: the calibrated prediction for sample `i`,
`slope * x i + intercept`. -/
def calibrated_predictions (n : ℕ) (x y : ℕ → ℚ) (i : ℕ) : ℚ :=
  slope n x y * x i + intercept n x y

/-- Embedding of `sklearn.metrics.mean_squared_error u v = mean((u−v)²)`. -/
def mean_squared_error (n : ℕ) (u v : ℕ → ℚ) : ℚ :=
  S n (fun i => (u i - v i) ^ 2) / (n : ℚ)

/-- Embedding of `sklearn.metrics.mean_absolute_error u v = mean(|u−v|)`. -/
def mean_absolute_error (n : ℕ) (u v : ℕ → ℚ) : ℚ :=
  S n (fun i => |u i - v i|) / (n : ℚ)

/-- The script's `rmse = np.sqrt(mean_squared_error(truth_flat, calibrated_predictions))`. -/
noncomputable def rmse (n : ℕ) (x y : ℕ → ℚ) : ℝ :=
  Real.sqrt ((mean_squared_error n y (calibrated_predictions n x y) : ℚ) : ℝ)

/-- The script's `mae = mean_absolute_error(truth_flat, calibrated_predictions)`. -/
def mae (n : ℕ) (x y : ℕ → ℚ) : ℚ :=
  mean_absolute_error n y (calibrated_predictions n x y)

/-- Embedding of the `scipy.stats.pearsonr` correlation coefficient:
`(n·Σxy − Σx·Σy) / sqrt((n·Σx² − (Σx)²)·(n·Σy² − (Σy)²))`. -/
noncomputable def pearson (n : ℕ) (x y : ℕ → ℚ) : ℝ :=
  (((n : ℚ) * S n (fun i => x i * y i) - S n x * S n y : ℚ) : ℝ) /
    Real.sqrt ((((n : ℚ) * S n (fun i => x i ^ 2) - (S n x) ^ 2) *
      ((n : ℚ) * S n (fun i => y i ^ 2) - (S n y) ^ 2) : ℚ) : ℝ)

/-- Sum of squared residuals of the line `y = a·x + b` over the data:
the objective that "ordinary least squares" minimises. -/
def sse (n : ℕ) (x y : ℕ → ℚ) (a b : ℚ) : ℚ :=
  S n (fun i => (y i - (a * x i + b)) ^ 2)

/-- The quantity `np.mean(errors)` where
`errors = truth_flat - calibrated_predictions`:
the mean annotated on the error histogram (plot 4 of
`create_visualizations`). -/
def errors_mean (n : ℕ) (x y : ℕ → ℚ) : ℚ :=
  S n (fun i => y i - calibrated_predictions n x y i) / (n : ℚ)

/-- Shorthand for the slope denominator `n·Σx² − (Σx)²`. -/
def Dx (n : ℕ) (x : ℕ → ℚ) : ℚ :=
  (n : ℚ) * S n (fun i => x i ^ 2) - (S n x) ^ 2

/-- Shorthand for the slope numerator `n·Σxy − Σx·Σy`. -/
def Ex (n : ℕ) (x y : ℕ → ℚ) : ℚ :=
  (n : ℚ) * S n (fun i => x i * y i) - S n x * S n y

/-- A rasterio-opened raster as needed by `load_and_prepare_data`:
dimensions, one band of values, optional declared no-data sentinel. -/
structure Raster where
  rows : ℕ
  cols : ℕ
  band : ℕ → ℕ → ℚ
  nodata : Option ℚ

/-- The two error classes `load_and_prepare_data` can raise
(`FileNotFoundError`, shape-mismatch `ValueError`). -/
inductive LoadError where
  | fileNotFound : LoadError
  | shapeMismatch : LoadError
deriving DecidableEq

/-- The data returned by a successful `load_and_prepare_data`. -/
structure Prepared where
  predicted_array : ℕ → ℕ → ℚ
  truth_array : ℕ → ℕ → ℚ
  mask : ℕ → ℕ → Bool

/-- Embedding of `load_and_prepare_data`: a missing file (`none`) raises
`FileNotFoundError`; differing shapes raise the shape-mismatch
`ValueError`; otherwise the arrays and the valid-pixel mask (built from
the ground truth's no-data value, or all-true if none is declared) are
returned. -/
def load_and_prepare_data (predicted truth : Option Raster) :
    Except LoadError Prepared :=
  match predicted, truth with
  | some p, some t =>
      if (p.rows, p.cols) ≠ (t.rows, t.cols) then .error .shapeMismatch
      else .ok
        { predicted_array := p.band
          truth_array := t.band
          mask := fun r c =>
            match t.nodata with
            | some nd => decide (t.band r c ≠ nd)
            | none => true }
  | _, _ => .error .fileNotFound

/-- The files `main` writes: nothing when `load_and_prepare_data` raises
(the `try` block aborts before `save_report` and `create_visualizations`),
else the report and the four plots. -/
def output_files (predicted truth : Option Raster) : List String :=
  match load_and_prepare_data predicted truth with
  | .error _ => []
  | .ok _ =>
      ["analysis_report.txt", "comparison_side_by_side.png",
       "density_scatter_plot.png", "error_map.png", "error_histogram.png"]

end AnalyzeResult

/-! Visualization Exporter — src/process.py -/

namespace ProcessImg

/-- The fixed lower clip bound `min_val = 0`. -/
def min_val : ℚ := 0

/-- The fixed upper clip bound `max_val = 1500`. -/
def max_val : ℚ := 1500

/-- Embedding of `np.clip(v, lo, hi) = minimum(hi, maximum(v, lo))`. -/
def clip (v lo hi : ℚ) : ℚ := min (max v lo) hi

/-- Truncation toward zero: the C-cast semantics `astype(np.uint8)`
applies to an in-range float. -/
def truncTowardZero (q : ℚ) : ℤ := if 0 ≤ q then ⌊q⌋ else ⌈q⌉

/-- The cast `astype(np.uint8)` of a single float sample: truncate toward zero and
keep the low 8 bits. -/
def toUint8 (q : ℚ) : ℕ := (truncTowardZero q).toNat % 256

/-- One sample of `scaled_data`:
`((np.clip(v, 0, 1500) - 0) / (1500 - 0)) * 255`. -/
def scaled (v : ℚ) : ℚ :=
  (clip v min_val max_val - min_val) / (max_val - min_val) * 255

/-- One sample of `rgb_data_uint8 = scaled_data.astype(np.uint8)`. -/
def rescale (v : ℚ) : ℕ := toUint8 (scaled v)

/-- The array `rgb_data_uint8` as a band-major indexed family over the raw data. -/
def rgb_data_uint8 (raw : ℕ → ℕ → ℕ → ℚ) : ℕ → ℕ → ℕ → ℕ :=
  fun c h w => rescale (raw c h w)

/-- Embedding of `np.transpose(·, (1, 2, 0))`: band-major `(c, h, w)` to pixel-major
`(h, w, c)`. -/
def transpose120 (arr : ℕ → ℕ → ℕ → ℕ) : ℕ → ℕ → ℕ → ℕ :=
  fun h w c => arr c h w

/-- Materialise a `(height, width, bands)` indexed family as nested lists,
the in-memory layout handed to `Image.fromarray`. -/
def materialise (hgt wid bands : ℕ) (arr : ℕ → ℕ → ℕ → ℕ) :
    List (List (List ℕ)) :=
  (List.range hgt).map fun h =>
    (List.range wid).map fun w =>
      (List.range bands).map fun c => arr h w c

/-- The array `rgb_data_hwc = np.transpose(rgb_data_uint8, (1, 2, 0))`,
materialised for a raw array of shape `(bands, hgt, wid)`. -/
def rgb_data_hwc (bands hgt wid : ℕ) (raw : ℕ → ℕ → ℕ → ℚ) :
    List (List (List ℕ)) :=
  materialise hgt wid bands (transpose120 (rgb_data_uint8 raw))

end ProcessImg

/-! Alignment Checker — src/alignment-1.py -/

namespace Alignment

/-- The metadata of an opened raster that the checker inspects.  A CRS is
compared only for exact equality, so it is embedded as an opaque
identifier. -/
structure RasterMeta where
  crs : ℕ
  transform : Affine
  shape : ℕ × ℕ
deriving DecidableEq

/-- Default `np.allclose` relative tolerance `rtol = 1e-5`. -/
def rtol : ℚ := 1 / 100000

/-- Default `np.allclose` absolute tolerance `atol = 1e-8`. -/
def atol : ℚ := 1 / 100000000

/-- Embedding of `np.isclose(u, v) = |u − v| ≤ atol + rtol·|v|`. -/
def isclose (u v : ℚ) : Bool := decide (|u - v| ≤ atol + rtol * |v|)

/-- Embedding of `np.allclose` over the six affine coefficients (the constant third row
`(0, 0, 1)` of the homogeneous matrix is equal on both sides and omitted). -/
def allclose (s t : Affine) : Bool :=
  isclose s.a t.a && isclose s.b t.b && isclose s.c t.c &&
    isclose s.d t.d && isclose s.e t.e && isclose s.f t.f

/-- The two transforms are element-wise equal within the default
floating-point tolerance (the proposition `np.allclose` decides). -/
def transformWithinTol (s t : Affine) : Prop :=
  |s.a - t.a| ≤ atol + rtol * |t.a| ∧ |s.b - t.b| ≤ atol + rtol * |t.b| ∧
    |s.c - t.c| ≤ atol + rtol * |t.c| ∧ |s.d - t.d| ≤ atol + rtol * |t.d| ∧
    |s.e - t.e| ≤ atol + rtol * |t.e| ∧ |s.f - t.f| ≤ atol + rtol * |t.f|

instance (s t : Affine) : Decidable (transformWithinTol s t) := by
  unfold transformWithinTol
  infer_instance

/-- What the checker prints: the three booleans, the pair of differing
values for each failed check, and the final aligned verdict. -/
structure CheckResult where
  crs_match : Bool
  transform_match : Bool
  shape_match : Bool
  crs_values : Option (ℕ × ℕ)
  transform_values : Option (Affine × Affine)
  shape_values : Option ((ℕ × ℕ) × (ℕ × ℕ))
  aligned : Bool
deriving DecidableEq

/-- The whole checker script:
`crs_match = (sat.crs == bathy.crs)`,
`transform_match = np.allclose(sat.transform, bathy.transform)`,
`shape_match = (sat.shape == bathy.shape)`; each mismatch is reported with
both values, and the datasets are declared aligned iff all three hold. -/
def check (sat bathy : RasterMeta) : CheckResult :=
  let cm : Bool := decide (sat.crs = bathy.crs)
  let tm : Bool := allclose sat.transform bathy.transform
  let sm : Bool := decide (sat.shape = bathy.shape)
  { crs_match := cm
    transform_match := tm
    shape_match := sm
    crs_values := if cm then none else some (sat.crs, bathy.crs)
    transform_values := if tm then none else some (sat.transform, bathy.transform)
    shape_values := if sm then none else some (sat.shape, bathy.shape)
    aligned := cm && tm && sm }

end Alignment

/-! Resampler/Reprojector — src/reproject.py -/

namespace Reproject

/-- The caller-specified no-data sentinel of the script. -/
def OUTPUT_NODATA_VALUE : ℚ := -9999

/-- The source ("slave") raster handed to `rasterio.warp.reproject`. -/
structure SrcRaster where
  width : ℕ
  height : ℕ
  transform : Affine
  band : ℕ → ℕ → ℚ

/-- Clamp an integer pixel index into `[0, m−1]`. -/
def clampIdx (v : ℤ) (m : ℕ) : ℕ := (min (max v 0) ((m : ℤ) - 1)).toNat

/-- Modelled from the documented semantics of GDAL bilinear resampling:
interpolate among the four source samples nearest to the fractional pixel
location `(px, py)` (pixel centers sit at half-integer coordinates),
clamping indices at the raster edge. -/
def bilinear (src : SrcRaster) (px py : ℚ) : ℚ :=
  let gx := px - 1 / 2
  let gy := py - 1 / 2
  let x0 : ℤ := ⌊gx⌋
  let y0 : ℤ := ⌊gy⌋
  let fx := gx - (x0 : ℚ)
  let fy := gy - (y0 : ℚ)
  let v00 := src.band (clampIdx y0 src.height) (clampIdx x0 src.width)
  let v01 := src.band (clampIdx y0 src.height) (clampIdx (x0 + 1) src.width)
  let v10 := src.band (clampIdx (y0 + 1) src.height) (clampIdx x0 src.width)
  let v11 := src.band (clampIdx (y0 + 1) src.height) (clampIdx (x0 + 1) src.width)
  (1 - fy) * ((1 - fx) * v00 + fx * v01) + fy * ((1 - fx) * v10 + fx * v11)

/-- The world coordinate of destination pixel center `(row, col)` mapped
back into fractional source pixel coordinates. -/
def backMapped (src : SrcRaster) (dst_transform : Affine) (row col : ℕ) : ℚ × ℚ :=
  let wc := dst_transform.fwd ((col : ℚ) + 1 / 2) ((row : ℚ) + 1 / 2)
  src.transform.inverse wc.1 wc.2

/-- A fractional pixel location lies inside the source raster's valid
extent. -/
def insideSource (src : SrcRaster) (p : ℚ × ℚ) : Prop :=
  0 ≤ p.1 ∧ p.1 ≤ (src.width : ℚ) ∧ 0 ≤ p.2 ∧ p.2 ≤ (src.height : ℚ)

instance (src : SrcRaster) (p : ℚ × ℚ) : Decidable (insideSource src p) := by
  unfold insideSource
  infer_instance

/-- Modelled from the documented semantics of `rasterio.warp.reproject`
(GDAL warp) with `resampling=Resampling.bilinear`: each destination pixel
center is mapped to world coordinates with `dst_transform` and back into
source pixel space with the inverse of `src_transform`; locations inside
the source extent are bilinearly interpolated, all others receive
`dst_nodata`. -/
def reprojectPixel (src : SrcRaster) (dst_transform : Affine)
    (dst_nodata : ℚ) (row col : ℕ) : ℚ :=
  if insideSource src (backMapped src dst_transform row col) then
    bilinear src (backMapped src dst_transform row col).1
      (backMapped src dst_transform row col).2
  else dst_nodata

/-- The subset of a rasterio profile the script reads and updates. -/
structure Profile where
  crs : ℕ
  transform : Affine
  width : ℕ
  height : ℕ
  count : ℕ
  dtype : String
  nodata : Option ℚ

/-- The update `master_profile.update(dtype=np.float32, count=1,
nodata=OUTPUT_NODATA_VALUE)`. -/
def updateProfile (p : Profile) : Profile :=
  { p with dtype := "float32", count := 1, nodata := some OUTPUT_NODATA_VALUE }

/-- The GeoTIFF the script persists: metadata profile plus band 1 data. -/
structure OutputFile where
  profile : Profile
  data : ℕ → ℕ → ℚ

/-- The whole script: resample the slave onto the master grid (the
destination array is pre-filled with `OUTPUT_NODATA_VALUE` and `reproject`
is called with `dst_nodata=OUTPUT_NODATA_VALUE`, so every destination
pixel holds `reprojectPixel`), then write it with the updated profile. -/
def runReproject (master : Profile) (slave : SrcRaster) : OutputFile :=
  { profile := updateProfile master
    data := fun row col =>
      reprojectPixel slave master.transform OUTPUT_NODATA_VALUE row col }

end Reproject

/-! Template-Aligned Grayscale Converter — src/cvt2gray.py -/

namespace Cvt2gray

/-- A PIL image: pixel size and channel count. -/
structure PImage where
  width : ℕ
  height : ℕ
  channels : ℕ
deriving DecidableEq

/-- PIL `img.convert('L')`: single channel, size unchanged (luminance
transform of the samples is not size-relevant). -/
def convertL (img : PImage) : PImage := { img with channels := 1 }

/-- PIL `img.resize(size, Image.Resampling.LANCZOS)`: the output has
exactly the requested `(width, height)`. -/
def resize (img : PImage) (size : ℕ × ℕ) : PImage :=
  { width := size.1, height := size.2, channels := img.channels }

/-- Embedding of `align_and_convert`: read the template's `(rows, cols)` shape, convert
the generated image to grayscale, and resize it to
`target_size_pil = (shape[1], shape[0])` (PIL wants `(width, height)`,
the reverse of rasterio's `(rows, cols)`). -/
def align_and_convert (img : PImage) (template_shape : ℕ × ℕ) : PImage :=
  resize (convertL img) (template_shape.2, template_shape.1)

end Cvt2gray

/-! Lemmas and theorems -/

namespace AnalyzeResult

lemma slope_eq_div (n : ℕ) (x y : ℕ → ℚ) : slope n x y = Ex n x y / Dx n x := rfl

/-- Identity `n · Dx = ∑ (n·xᵢ − Σx)²`: the slope denominator is (n times) a sum of
squares. -/
lemma n_mul_Dx (n : ℕ) (x : ℕ → ℚ) :
    (n : ℚ) * Dx n x = S n (fun i => ((n : ℚ) * x i - S n x) ^ 2) := by
  have h : ∀ i ∈ Finset.range n,
      ((n : ℚ) * x i - S n x) ^ 2
        = (n : ℚ) ^ 2 * x i ^ 2 - (2 * (n : ℚ) * S n x) * x i + (S n x) ^ 2 :=
    fun i _ => by ring
  unfold Dx
  rw [show S n (fun i => ((n : ℚ) * x i - S n x) ^ 2)
      = ∑ i in Finset.range n,
        ((n : ℚ) ^ 2 * x i ^ 2 - (2 * (n : ℚ) * S n x) * x i + (S n x) ^ 2) from
    Finset.sum_congr rfl h]
  unfold S
  rw [Finset.sum_add_distrib, Finset.sum_sub_distrib, ← Finset.mul_sum,
    ← Finset.mul_sum, Finset.sum_const, Finset.card_range]
  ring

lemma Dx_nonneg (n : ℕ) (x : ℕ → ℚ) (hn : 0 < n) : 0 ≤ Dx n x := by
  have h := n_mul_Dx n x
  have hS : 0 ≤ S n (fun i => ((n : ℚ) * x i - S n x) ^ 2) :=
    Finset.sum_nonneg fun i _ => sq_nonneg _
  have hn' : (0 : ℚ) < (n : ℚ) := by exact_mod_cast hn
  nlinarith

/-- If the slope denominator vanishes then every `n·xᵢ` equals `Σx`
(the regressor is constant). -/
lemma const_of_Dx_zero (n : ℕ) (x : ℕ → ℚ) (hD : Dx n x = 0) :
    ∀ i ∈ Finset.range n, (n : ℚ) * x i = S n x := by
  have h := n_mul_Dx n x
  rw [hD, mul_zero] at h
  have hz : ∀ i ∈ Finset.range n, ((n : ℚ) * x i - S n x) ^ 2 = 0 := by
    intro i hi
    have := (Finset.sum_eq_zero_iff_of_nonneg
      (fun j _ => sq_nonneg ((n : ℚ) * x j - S n x))).mp h.symm
    exact this i hi
  intro i hi
  have := hz i hi
  have : (n : ℚ) * x i - S n x = 0 := by
    exact pow_eq_zero_iff (n := 2) (by norm_num) |>.mp this
  linarith

/-- If the regressor is constant the slope numerator also vanishes. -/
lemma Ex_zero_of_Dx_zero (n : ℕ) (x y : ℕ → ℚ) (hn : 0 < n)
    (hD : Dx n x = 0) : Ex n x y = 0 := by
  have hconst := const_of_Dx_zero n x hD
  have hn' : (0 : ℚ) < (n : ℚ) := by exact_mod_cast hn
  have key : (n : ℚ) * Ex n x y
      = S n (fun i => ((n : ℚ) * x i - S n x) * ((n : ℚ) * y i)) := by
    have h : ∀ i ∈ Finset.range n,
        ((n : ℚ) * x i - S n x) * ((n : ℚ) * y i)
          = (n : ℚ) ^ 2 * (x i * y i) - ((n : ℚ) * S n x) * y i :=
      fun i _ => by ring
    have h2 : S n (fun i => ((n : ℚ) * x i - S n x) * ((n : ℚ) * y i))
        = S n (fun i => (n : ℚ) ^ 2 * (x i * y i) - ((n : ℚ) * S n x) * y i) :=
      Finset.sum_congr rfl h
    rw [h2]
    simp only [Ex, S, Finset.sum_sub_distrib, ← Finset.mul_sum]
    ring
  have hz : S n (fun i => ((n : ℚ) * x i - S n x) * ((n : ℚ) * y i)) = 0 :=
    Finset.sum_eq_zero fun i hi => by
      show ((n : ℚ) * x i - S n x) * ((n : ℚ) * y i) = 0
      rw [sub_eq_zero.mpr (hconst i hi), zero_mul]
  have hprod : (n : ℚ) * Ex n x y = 0 := by rw [key, hz]
  exact (mul_eq_zero.mp hprod).resolve_left (ne_of_gt hn')

/-- Expansion of the sum of squared residuals into the five data sums. -/
lemma sse_sums (n : ℕ) (x y : ℕ → ℚ) (a b : ℚ) :
    sse n x y a b
      = S n (fun i => y i ^ 2) + a ^ 2 * S n (fun i => x i ^ 2)
        + (n : ℚ) * b ^ 2 - 2 * a * S n (fun i => x i * y i)
        - 2 * b * S n y + 2 * (a * b) * S n x := by
  have h : ∀ i ∈ Finset.range n,
      (y i - (a * x i + b)) ^ 2
        = y i ^ 2 + a ^ 2 * x i ^ 2 + b ^ 2 - 2 * a * (x i * y i)
          - 2 * b * y i + 2 * (a * b) * x i := fun i _ => by ring
  have h2 : sse n x y a b
      = S n (fun i => y i ^ 2 + a ^ 2 * x i ^ 2 + b ^ 2 - 2 * a * (x i * y i)
          - 2 * b * y i + 2 * (a * b) * x i) :=
    Finset.sum_congr rfl h
  rw [h2]
  simp only [S, Finset.sum_add_distrib, Finset.sum_sub_distrib, ← Finset.mul_sum,
    Finset.sum_const, Finset.card_range, nsmul_eq_mul]

/-- The product `n·sse(a,b)` written as a completed square plus a quadratic in `a`. -/
lemma sse_expand (n : ℕ) (x y : ℕ → ℚ) (a b : ℚ) :
    (n : ℚ) * sse n x y a b
      = ((n : ℚ) * b + a * S n x - S n y) ^ 2
        + (a ^ 2 * Dx n x - 2 * a * Ex n x y)
        + ((n : ℚ) * S n (fun i => y i ^ 2) - (S n y) ^ 2) := by
  rw [sse_sums]
  unfold Dx Ex
  ring

lemma n_mul_intercept (n : ℕ) (x y : ℕ → ℚ) (hn : 0 < n) :
    (n : ℚ) * intercept n x y = S n y - slope n x y * S n x := by
  have hn' : ((n : ℚ)) ≠ 0 := by
    exact_mod_cast Nat.pos_iff_ne_zero.mp hn
  unfold intercept
  field_simp

/-- The fitted `(slope, intercept)` minimise the sum of squared residuals:
this is what "ordinary least-squares linear fit of truth as a function of
predicted value" means. -/
lemma sse_min (n : ℕ) (x y : ℕ → ℚ) (hn : 0 < n) (a b : ℚ) :
    sse n x y (slope n x y) (intercept n x y) ≤ sse n x y a b := by
  have hn' : (0 : ℚ) < (n : ℚ) := by exact_mod_cast hn
  have hc : (n : ℚ) * intercept n x y = S n y - slope n x y * S n x :=
    n_mul_intercept n x y hn
  have hz : (n : ℚ) * intercept n x y + slope n x y * S n x - S n y = 0 := by
    linarith
  have e1 := sse_expand n x y a b
  have e2 := sse_expand n x y (slope n x y) (intercept n x y)
  rw [hz] at e2
  rcases eq_or_lt_of_le (Dx_nonneg n x hn) with hD | hD
  · have hD0 : Dx n x = 0 := hD.symm
    have hE0 : Ex n x y = 0 := Ex_zero_of_Dx_zero n x y hn hD0
    rw [hD0, hE0] at e1 e2
    nlinarith [sq_nonneg ((n : ℚ) * b + a * S n x - S n y)]
  · have hmD : slope n x y * Dx n x = Ex n x y := by
      rw [slope_eq_div]
      field_simp
    have hkey : Dx n x * ((n : ℚ) * sse n x y a b)
        - Dx n x * ((n : ℚ) * sse n x y (slope n x y) (intercept n x y))
        = Dx n x * (((n : ℚ) * b + a * S n x - S n y) ^ 2)
          + (a * Dx n x - Ex n x y) ^ 2 := by
      rw [e1, e2]
      linear_combination (Ex n x y - slope n x y * Dx n x) * hmD
    have h1 : 0 ≤ Dx n x * (((n : ℚ) * b + a * S n x - S n y) ^ 2) :=
      mul_nonneg hD.le (sq_nonneg _)
    have h2 : 0 ≤ (a * Dx n x - Ex n x y) ^ 2 := sq_nonneg _
    have h3 : 0 < Dx n x * (n : ℚ) := mul_pos hD hn'
    nlinarith [hkey, h1, h2, h3]

/-- The correlation `pearson` written with the `Ex`/`Dx` shorthands: its denominator is
`sqrt(Dx(x)·Dx(y))`. -/
lemma pearson_eq (n : ℕ) (x y : ℕ → ℚ) :
    pearson n x y = ((Ex n x y : ℚ) : ℝ) / Real.sqrt ((Dx n x * Dx n y : ℚ) : ℝ) := rfl

section Affine

variable (n : ℕ) (x y : ℕ → ℚ) (a b : ℚ)

lemma affine_Sy (hrel : ∀ i ∈ Finset.range n, y i = a * x i + b) :
    S n y = a * S n x + (n : ℚ) * b := by
  have h2 : S n y = S n (fun i => a * x i + b) := Finset.sum_congr rfl hrel
  rw [h2]
  simp only [S, Finset.sum_add_distrib, ← Finset.mul_sum, Finset.sum_const,
    Finset.card_range, nsmul_eq_mul]

lemma affine_Sxy (hrel : ∀ i ∈ Finset.range n, y i = a * x i + b) :
    S n (fun i => x i * y i) = a * S n (fun i => x i ^ 2) + b * S n x := by
  have h : ∀ i ∈ Finset.range n, x i * y i = a * x i ^ 2 + b * x i := by
    intro i hi
    rw [hrel i hi]; ring
  have h2 : S n (fun i => x i * y i) = S n (fun i => a * x i ^ 2 + b * x i) :=
    Finset.sum_congr rfl h
  rw [h2]
  simp only [S, Finset.sum_add_distrib, ← Finset.mul_sum]

lemma affine_Syy (hrel : ∀ i ∈ Finset.range n, y i = a * x i + b) :
    S n (fun i => y i ^ 2)
      = a ^ 2 * S n (fun i => x i ^ 2) + 2 * (a * b) * S n x + (n : ℚ) * b ^ 2 := by
  have h : ∀ i ∈ Finset.range n,
      y i ^ 2 = a ^ 2 * x i ^ 2 + 2 * (a * b) * x i + b ^ 2 := by
    intro i hi
    rw [hrel i hi]; ring
  have h2 : S n (fun i => y i ^ 2)
      = S n (fun i => a ^ 2 * x i ^ 2 + 2 * (a * b) * x i + b ^ 2) :=
    Finset.sum_congr rfl h
  rw [h2]
  simp only [S, Finset.sum_add_distrib, ← Finset.mul_sum, Finset.sum_const,
    Finset.card_range, nsmul_eq_mul]

lemma affine_Ex (hrel : ∀ i ∈ Finset.range n, y i = a * x i + b) :
    Ex n x y = a * Dx n x := by
  unfold Ex Dx
  rw [affine_Sxy n x y a b hrel, affine_Sy n x y a b hrel]
  ring

lemma affine_Dy (hrel : ∀ i ∈ Finset.range n, y i = a * x i + b) :
    Dx n y = a ^ 2 * Dx n x := by
  unfold Dx
  rw [affine_Syy n x y a b hrel, affine_Sy n x y a b hrel]
  ring

end Affine

/-- A sequence with two distinct values among its first `n` entries has a
strictly positive slope denominator. -/
lemma Dx_pos_of_nonconst (n : ℕ) (x : ℕ → ℚ) (i j : ℕ)
    (hi : i ∈ Finset.range n) (hj : j ∈ Finset.range n) (hne : x i ≠ x j) :
    0 < Dx n x := by
  have hn : 0 < n := lt_of_le_of_lt (Nat.zero_le i) (Finset.mem_range.mp hi)
  have hn' : ((n : ℚ)) ≠ 0 := by
    exact_mod_cast Nat.pos_iff_ne_zero.mp hn
  rcases (Dx_nonneg n x hn).eq_or_lt with hD | hD
  · exfalso
    have hci := const_of_Dx_zero n x hD.symm i hi
    have hcj := const_of_Dx_zero n x hD.symm j hj
    exact hne (mul_left_cancel₀ hn' (hci.trans hcj.symm))
  · exact hD

/-- Claim C1: for every pair of equal-length non-empty 1-D sequences, the
Accuracy Analyzer's `(slope, intercept)` is the ordinary least-squares
linear fit of truth as a function of predicted value (it minimises the
sum of squared residuals over all lines), the calibrated predictions are
`slope·predicted + intercept`, RMSE is the square root of the mean squared
residual between truth and the calibrated predictions, and MAE is the mean
absolute residual. -/
theorem C1_quantitative_analysis (n : ℕ) (x y : ℕ → ℚ) (hn : 0 < n) :
    (∀ a b : ℚ, sse n x y (slope n x y) (intercept n x y) ≤ sse n x y a b)
      ∧ (∀ i, calibrated_predictions n x y i
          = slope n x y * x i + intercept n x y)
      ∧ rmse n x y = Real.sqrt
          (((S n (fun i => (y i - calibrated_predictions n x y i) ^ 2)
            / (n : ℚ) : ℚ)) : ℝ)
      ∧ mae n x y
          = S n (fun i => |y i - calibrated_predictions n x y i|) / (n : ℚ) :=
  ⟨fun a b => sse_min n x y hn a b, fun _ => rfl, rfl, rfl⟩

theorem C1_quantitative_analysis_witness :
    0 < 2 ∧
      sse 2 (fun i => (i : ℚ)) (fun i => 2 * (i : ℚ) + 1)
        (slope 2 (fun i => (i : ℚ)) (fun i => 2 * (i : ℚ) + 1))
        (intercept 2 (fun i => (i : ℚ)) (fun i => 2 * (i : ℚ) + 1))
      ≤ sse 2 (fun i => (i : ℚ)) (fun i => 2 * (i : ℚ) + 1) 5 7 :=
  ⟨by norm_num, (C1_quantitative_analysis 2 _ _ (by norm_num)).1 5 7⟩

/-- Claim C10: because the calibration is an ordinary least-squares fit with
an intercept evaluated on the very predicted values it was fit from, the
residuals truth − calibrated sum to zero, so the mean annotated on the
error histogram is exactly zero. -/
theorem C10_residual_mean_zero (n : ℕ) (x y : ℕ → ℚ) (hn : 0 < n) :
    errors_mean n x y = 0 := by
  have hsum : S n (fun i => y i - calibrated_predictions n x y i)
      = S n y - slope n x y * S n x - (n : ℚ) * intercept n x y := by
    unfold calibrated_predictions
    simp only [S, Finset.sum_sub_distrib, Finset.sum_add_distrib,
      ← Finset.mul_sum, Finset.sum_const, Finset.card_range, nsmul_eq_mul]
    ring
  unfold errors_mean
  rw [hsum, n_mul_intercept n x y hn, sub_self, zero_div]

theorem C10_residual_mean_zero_witness :
    0 < 2 ∧ errors_mean 2 (fun i => (i : ℚ)) (fun i => 3 * (i : ℚ) - 1) = 0 :=
  ⟨by norm_num, C10_residual_mean_zero 2 _ _ (by norm_num)⟩

/-- Claim C2 (amended: the Pearson conclusions require a nonzero transform
slope `a`; for `a = 0` the truth sequence is constant and the Pearson
correlation is undefined): for every non-constant predicted sequence and
truth related by the exact affine transform `truth = a·predicted + b`,
the fitted slope and intercept exactly recover `a` and `b`, RMSE and MAE
are both zero, and the Pearson correlation is `1` when `a > 0` and `-1`
when `a < 0`. -/
theorem C2_affine_recovery (n : ℕ) (x y : ℕ → ℚ) (a b : ℚ)
    (hrel : ∀ i ∈ Finset.range n, y i = a * x i + b)
    (hnc : ∃ i ∈ Finset.range n, ∃ j ∈ Finset.range n, x i ≠ x j) :
    slope n x y = a ∧ intercept n x y = b
      ∧ rmse n x y = 0 ∧ mae n x y = 0
      ∧ (0 < a → pearson n x y = 1) ∧ (a < 0 → pearson n x y = -1) := by
  obtain ⟨i, hi, j, hj, hne⟩ := hnc
  have hn : 0 < n := lt_of_le_of_lt (Nat.zero_le i) (Finset.mem_range.mp hi)
  have hn' : ((n : ℚ)) ≠ 0 := by
    exact_mod_cast Nat.pos_iff_ne_zero.mp hn
  have hD : 0 < Dx n x := Dx_pos_of_nonconst n x i j hi hj hne
  have hslope : slope n x y = a := by
    rw [slope_eq_div, affine_Ex n x y a b hrel]
    exact mul_div_cancel_right₀ a hD.ne'
  have hint : intercept n x y = b := by
    unfold intercept
    rw [affine_Sy n x y a b hrel, hslope]
    field_simp
  have hresid : ∀ k ∈ Finset.range n,
      y k - calibrated_predictions n x y k = 0 := by
    intro k hk
    unfold calibrated_predictions
    rw [hslope, hint, hrel k hk]
    ring
  have hmse : mean_squared_error n y (calibrated_predictions n x y) = 0 := by
    unfold mean_squared_error
    rw [show S n (fun k => (y k - calibrated_predictions n x y k) ^ 2) = 0 from
      Finset.sum_eq_zero fun k hk => by
        show (y k - calibrated_predictions n x y k) ^ 2 = 0
        rw [hresid k hk]
        norm_num]
    exact zero_div _
  have hrmse : rmse n x y = 0 := by
    unfold rmse
    rw [hmse]
    simp
  have hmae : mae n x y = 0 := by
    unfold mae mean_absolute_error
    rw [show S n (fun k => |y k - calibrated_predictions n x y k|) = 0 from
      Finset.sum_eq_zero fun k hk => by
        show |y k - calibrated_predictions n x y k| = 0
        rw [hresid k hk]
        exact abs_zero]
    exact zero_div _
  have harg : (Dx n x * (a ^ 2 * Dx n x) : ℚ) = (a * Dx n x) ^ 2 := by ring
  have hpe : pearson n x y
      = ((a * Dx n x : ℚ) : ℝ) / Real.sqrt (((a * Dx n x) ^ 2 : ℚ) : ℝ) := by
    rw [pearson_eq, affine_Ex n x y a b hrel, affine_Dy n x y a b hrel, harg]
  have hsq : Real.sqrt (((a * Dx n x) ^ 2 : ℚ) : ℝ) = |((a * Dx n x : ℚ) : ℝ)| := by
    rw [Rat.cast_pow]
    exact Real.sqrt_sq_eq_abs _
  refine ⟨hslope, hint, hrmse, hmae, ?_, ?_⟩
  · intro ha
    have hpos : (0 : ℚ) < a * Dx n x := mul_pos ha hD
    have hposR : (0 : ℝ) < ((a * Dx n x : ℚ) : ℝ) := by exact_mod_cast hpos
    rw [hpe, hsq, abs_of_pos hposR, div_self hposR.ne']
  · intro ha
    have hneg : a * Dx n x < 0 := mul_neg_of_neg_of_pos ha hD
    have hnegR : ((a * Dx n x : ℚ) : ℝ) < 0 := by exact_mod_cast hneg
    rw [hpe, hsq, abs_of_neg hnegR, div_neg, div_self hnegR.ne]

theorem C2_affine_recovery_witness :
    (∀ i ∈ Finset.range 2,
        (fun k : ℕ => 2 * (k : ℚ) + 3) i = 2 * (fun k : ℕ => (k : ℚ)) i + 3)
      ∧ (∃ i ∈ Finset.range 2, ∃ j ∈ Finset.range 2,
          (fun k : ℕ => (k : ℚ)) i ≠ (fun k : ℕ => (k : ℚ)) j)
      ∧ slope 2 (fun k : ℕ => (k : ℚ)) (fun k : ℕ => 2 * (k : ℚ) + 3) = 2 :=
  ⟨fun i _ => rfl,
   ⟨0, by norm_num, 1, by norm_num, by norm_num⟩,
   (C2_affine_recovery 2 (fun k : ℕ => (k : ℚ)) (fun k : ℕ => 2 * (k : ℚ) + 3)
      2 3 (fun i _ => rfl)
      ⟨0, by norm_num, 1, by norm_num, by norm_num⟩).1⟩

/-- Claim C2 counterexample: the claim as frozen fails at transform slope
`a = 0`.  The sequences `predicted = 0, 1` (non-constant) and
`truth = 5, 5` are related by the exact affine transform
`truth = 0·predicted + 5`, yet the Pearson correlation is not `1`:
the truth sequence is constant, so the correlation is the indeterminate
`0/0` (scipy returns NaN with a `ConstantInputWarning`; the embedding's
division convention evaluates it to `0`). -/
theorem C2_affine_recovery_cex :
    (∀ i ∈ Finset.range 2,
        (fun _ : ℕ => (5 : ℚ)) i = 0 * (fun k : ℕ => (k : ℚ)) i + 5)
      ∧ (fun k : ℕ => (k : ℚ)) 0 ≠ (fun k : ℕ => (k : ℚ)) 1
      ∧ pearson 2 (fun k : ℕ => (k : ℚ)) (fun _ : ℕ => (5 : ℚ)) ≠ 1 := by
  refine ⟨fun i _ => by norm_num, by norm_num, ?_⟩
  have hEx : Ex 2 (fun k : ℕ => (k : ℚ)) (fun _ : ℕ => (5 : ℚ)) = 0 := by
    norm_num [Ex, S, Finset.sum_range_succ]
  rw [pearson_eq, hEx]
  norm_num

/-- Claim C8: the load step raises the missing-input error iff at least one
of the two input files does not exist, raises the shape-mismatch error iff
both exist but the raster shapes differ, and in either error case `main`
writes no report file and no plot file. -/
theorem C8_load_errors (predicted truth : Option Raster) :
    (load_and_prepare_data predicted truth = .error .fileNotFound
        ↔ predicted = none ∨ truth = none)
      ∧ (load_and_prepare_data predicted truth = .error .shapeMismatch
        ↔ ∃ p t, predicted = some p ∧ truth = some t
            ∧ (p.rows, p.cols) ≠ (t.rows, t.cols))
      ∧ ∀ e, load_and_prepare_data predicted truth = .error e
          → output_files predicted truth = [] := by
  rcases predicted with _ | p <;> rcases truth with _ | t
  · simp [load_and_prepare_data, output_files]
  · simp [load_and_prepare_data, output_files]
  · simp [load_and_prepare_data, output_files]
  · by_cases hsh : (p.rows, p.cols) = (t.rows, t.cols)
    · have h := Prod.mk.injEq p.rows p.cols t.rows t.cols ▸ hsh
      simp [load_and_prepare_data, output_files, hsh, h.1, h.2]
    · simp [load_and_prepare_data, output_files, hsh]
      intro h1 h2
      exact hsh (by rw [h1, h2])

theorem C8_load_errors_witness :
    load_and_prepare_data none none = .error .fileNotFound
      ∧ output_files none none = [] :=
  ⟨(C8_load_errors none none).1.mpr (Or.inl rfl),
   (C8_load_errors none none).2.2 .fileNotFound
     ((C8_load_errors none none).1.mpr (Or.inl rfl))⟩

end AnalyzeResult

namespace ProcessImg

lemma clip_bounds (v : ℚ) : 0 ≤ clip v min_val max_val
    ∧ clip v min_val max_val ≤ 1500 := by
  unfold clip min_val max_val
  exact ⟨le_min (le_max_right v 0) (by norm_num), min_le_right _ _⟩

lemma clip_mono (u v : ℚ) (huv : u ≤ v) :
    clip u min_val max_val ≤ clip v min_val max_val := by
  unfold clip
  exact min_le_min (max_le_max huv le_rfl) le_rfl

lemma scaled_bounds (v : ℚ) : 0 ≤ scaled v ∧ scaled v ≤ 255 := by
  have h := clip_bounds v
  unfold scaled min_val max_val
  unfold min_val max_val at h
  constructor <;> nlinarith [h.1, h.2]

lemma scaled_mono (u v : ℚ) (huv : u ≤ v) : scaled u ≤ scaled v := by
  have h := clip_mono u v huv
  unfold scaled min_val max_val
  unfold min_val max_val at h
  nlinarith [h]

/-- For samples already in `[0, 255]` the uint8 cast is plain floor
(no wraparound). -/
lemma toUint8_of_range (q : ℚ) (h0 : 0 ≤ q) (h255 : q ≤ 255) :
    toUint8 q = (⌊q⌋).toNat := by
  unfold toUint8 truncTowardZero
  rw [if_pos h0]
  apply Nat.mod_eq_of_lt
  have hf : ⌊q⌋ ≤ 255 := by
    have h := Int.floor_le_floor h255
    simpa using h
  omega

/-- Claim C4: the Visualization Exporter's per-sample rescaling is monotonic
on `[min_val, max_val]`; every input strictly below `min_val` maps to `0`;
every input at or above `max_val` maps to `255`. -/
theorem C4_rescale_monotone :
    (∀ u v : ℚ, min_val ≤ u → u ≤ v → v ≤ max_val → rescale u ≤ rescale v)
      ∧ (∀ v : ℚ, v < min_val → rescale v = 0)
      ∧ (∀ v : ℚ, max_val ≤ v → rescale v = 255) := by
  refine ⟨?_, ?_, ?_⟩
  · intro u v _ huv _
    have hm := scaled_mono u v huv
    have hu := scaled_bounds u
    have hv := scaled_bounds v
    unfold rescale
    rw [toUint8_of_range _ hu.1 hu.2, toUint8_of_range _ hv.1 hv.2]
    have hff : ⌊scaled u⌋ ≤ ⌊scaled v⌋ := Int.floor_le_floor hm
    omega
  · intro v hv
    unfold rescale scaled clip min_val max_val toUint8 truncTowardZero
    unfold min_val at hv
    rw [max_eq_right hv.le, min_eq_left (by norm_num)]
    norm_num
  · intro v hv
    unfold rescale scaled clip min_val max_val toUint8 truncTowardZero
    unfold max_val at hv
    rw [max_eq_left (by linarith), min_eq_right hv]
    norm_num
    decide

theorem C4_rescale_monotone_witness :
    min_val ≤ (100 : ℚ) ∧ (100 : ℚ) ≤ 700 ∧ (700 : ℚ) ≤ max_val
      ∧ rescale 100 ≤ rescale 700
      ∧ ((-3 : ℚ) < min_val ∧ rescale (-3) = 0)
      ∧ (max_val ≤ (1600 : ℚ) ∧ rescale 1600 = 255) :=
  ⟨by norm_num [min_val], by norm_num, by norm_num [max_val],
   C4_rescale_monotone.1 100 700 (by norm_num [min_val]) (by norm_num)
     (by norm_num [max_val]),
   ⟨by norm_num [min_val], C4_rescale_monotone.2.1 (-3) (by norm_num [min_val])⟩,
   ⟨by norm_num [max_val], C4_rescale_monotone.2.2 1600 (by norm_num [max_val])⟩⟩

/-- Claim C5: for a band-major input of shape `(bands, hgt, wid)` the
exporter produces a pixel-major array of shape `(hgt, wid, bands)` whose
entry at `(h, w, c)` is the 8-bit truncation of
`(clip(input[c,h,w], min, max) − min) / (max − min) · 255`. -/
theorem C5_transpose_values (bands hgt wid : ℕ) (raw : ℕ → ℕ → ℕ → ℚ) :
    (rgb_data_hwc bands hgt wid raw).length = hgt
      ∧ (∀ row ∈ rgb_data_hwc bands hgt wid raw, row.length = wid
          ∧ ∀ px ∈ row, px.length = bands)
      ∧ ∀ h, h < hgt → ∀ w, w < wid → ∀ c, c < bands →
          ((((rgb_data_hwc bands hgt wid raw).getD h []).getD w []).getD c 0
            = toUint8 ((clip (raw c h w) min_val max_val - min_val)
                / (max_val - min_val) * 255)) := by
  refine ⟨?_, ?_, ?_⟩
  · simp [rgb_data_hwc, materialise]
  · intro row hrow
    simp only [rgb_data_hwc, materialise, List.mem_map, List.mem_range] at hrow
    obtain ⟨h, _, hrow⟩ := hrow
    subst hrow
    constructor
    · simp
    · intro px hpx
      simp only [List.mem_map, List.mem_range] at hpx
      obtain ⟨w, _, hpx⟩ := hpx
      subst hpx
      simp
  · intro h hh w hw c hc
    simp [rgb_data_hwc, materialise, transpose120, rgb_data_uint8, rescale,
      scaled, List.getD_eq_getElem?_getD, List.getElem?_map,
      List.getElem?_range, hh, hw, hc]

theorem C5_transpose_values_witness :
    (0 : ℕ) < 1
      ∧ (((rgb_data_hwc 1 1 1 (fun _ _ _ => 750)).getD 0 []).getD 0 []).getD 0 0
        = toUint8 ((clip 750 min_val max_val - min_val)
            / (max_val - min_val) * 255) :=
  ⟨by norm_num,
   (C5_transpose_values 1 1 1 (fun _ _ _ => 750)).2.2 0 (by norm_num)
     0 (by norm_num) 0 (by norm_num)⟩

end ProcessImg

namespace Alignment

/-- The check `np.allclose` decides exactly the element-wise tolerance
proposition. -/
lemma allclose_iff (s t : Affine) :
    allclose s t = true ↔ transformWithinTol s t := by
  unfold allclose isclose transformWithinTol
  simp [Bool.and_assoc, and_assoc]

/-- Claim C6: two rasters whose CRS values are exactly equal, whose affine
transforms are element-wise equal within the floating-point tolerance,
and whose dimensions are exactly equal are reported with all three checks
true and as aligned. -/
theorem C6_aligned (sat bathy : RasterMeta)
    (hc : sat.crs = bathy.crs)
    (ht : transformWithinTol sat.transform bathy.transform)
    (hs : sat.shape = bathy.shape) :
    (check sat bathy).crs_match = true
      ∧ (check sat bathy).transform_match = true
      ∧ (check sat bathy).shape_match = true
      ∧ (check sat bathy).aligned = true := by
  have ht' : allclose sat.transform bathy.transform = true :=
    (allclose_iff sat.transform bathy.transform).mpr ht
  simp [check, hc, hs, ht']

theorem C6_aligned_witness :
    (0 : ℕ) = 0 ∧ transformWithinTol ⟨10, 0, 5, 0, -10, 7⟩ ⟨10, 0, 5, 0, -10, 7⟩
      ∧ ((1, 2) : ℕ × ℕ) = (1, 2)
      ∧ (check ⟨0, ⟨10, 0, 5, 0, -10, 7⟩, (1, 2)⟩
          ⟨0, ⟨10, 0, 5, 0, -10, 7⟩, (1, 2)⟩).aligned = true :=
  ⟨rfl, by norm_num [transformWithinTol, atol, rtol], rfl,
   (C6_aligned ⟨0, ⟨10, 0, 5, 0, -10, 7⟩, (1, 2)⟩
      ⟨0, ⟨10, 0, 5, 0, -10, 7⟩, (1, 2)⟩ rfl
      (by norm_num [transformWithinTol, atol, rtol]) rfl).2.2.2⟩

/-- Claim C7: when exactly one of CRS / transform / dimensions differs (the
other two matching), the checker reports exactly that one check false, the
other two true, the pair of differing values for the mismatched attribute,
and the datasets as not aligned. -/
theorem C7_single_mismatch (sat bathy : RasterMeta)
    (hone :
      (sat.crs ≠ bathy.crs ∧ transformWithinTol sat.transform bathy.transform
          ∧ sat.shape = bathy.shape)
        ∨ (sat.crs = bathy.crs
            ∧ ¬ transformWithinTol sat.transform bathy.transform
            ∧ sat.shape = bathy.shape)
        ∨ (sat.crs = bathy.crs
            ∧ transformWithinTol sat.transform bathy.transform
            ∧ sat.shape ≠ bathy.shape)) :
    (sat.crs ≠ bathy.crs →
        (check sat bathy).crs_match = false
          ∧ (check sat bathy).transform_match = true
          ∧ (check sat bathy).shape_match = true
          ∧ (check sat bathy).crs_values = some (sat.crs, bathy.crs)
          ∧ (check sat bathy).transform_values = none
          ∧ (check sat bathy).shape_values = none
          ∧ (check sat bathy).aligned = false)
      ∧ (¬ transformWithinTol sat.transform bathy.transform →
        (check sat bathy).crs_match = true
          ∧ (check sat bathy).transform_match = false
          ∧ (check sat bathy).shape_match = true
          ∧ (check sat bathy).crs_values = none
          ∧ (check sat bathy).transform_values
              = some (sat.transform, bathy.transform)
          ∧ (check sat bathy).shape_values = none
          ∧ (check sat bathy).aligned = false)
      ∧ (sat.shape ≠ bathy.shape →
        (check sat bathy).crs_match = true
          ∧ (check sat bathy).transform_match = true
          ∧ (check sat bathy).shape_match = false
          ∧ (check sat bathy).crs_values = none
          ∧ (check sat bathy).transform_values = none
          ∧ (check sat bathy).shape_values = some (sat.shape, bathy.shape)
          ∧ (check sat bathy).aligned = false) := by
  rcases hone with ⟨hc, ht, hs⟩ | ⟨hc, ht, hs⟩ | ⟨hc, ht, hs⟩
  · have ht' : allclose sat.transform bathy.transform = true :=
      (allclose_iff sat.transform bathy.transform).mpr ht
    refine ⟨fun _ => ?_, fun h => absurd ht h, fun h => absurd hs h⟩
    simp [check, hc, hs, ht']
  · have ht' : allclose sat.transform bathy.transform = false := by
      rw [Bool.eq_false_iff]
      intro hcl
      exact ht ((allclose_iff sat.transform bathy.transform).mp hcl)
    refine ⟨fun h => absurd hc h, fun _ => ?_, fun h => absurd hs h⟩
    simp [check, hc, hs, ht']
  · have ht' : allclose sat.transform bathy.transform = true :=
      (allclose_iff sat.transform bathy.transform).mpr ht
    refine ⟨fun h => absurd hc h, fun h => absurd ht h, fun _ => ?_⟩
    simp [check, hc, hs, ht']

theorem C7_single_mismatch_witness :
    ((3 : ℕ) ≠ 4 ∧ transformWithinTol ⟨1, 0, 0, 0, 1, 0⟩ ⟨1, 0, 0, 0, 1, 0⟩
        ∧ ((5, 6) : ℕ × ℕ) = (5, 6))
      ∧ (check ⟨3, ⟨1, 0, 0, 0, 1, 0⟩, (5, 6)⟩
          ⟨4, ⟨1, 0, 0, 0, 1, 0⟩, (5, 6)⟩).crs_values = some (3, 4)
      ∧ (check ⟨3, ⟨1, 0, 0, 0, 1, 0⟩, (5, 6)⟩
          ⟨4, ⟨1, 0, 0, 0, 1, 0⟩, (5, 6)⟩).aligned = false :=
  ⟨⟨by norm_num, by norm_num [transformWithinTol, atol, rtol], rfl⟩,
   ((C7_single_mismatch ⟨3, ⟨1, 0, 0, 0, 1, 0⟩, (5, 6)⟩
        ⟨4, ⟨1, 0, 0, 0, 1, 0⟩, (5, 6)⟩
        (Or.inl ⟨by norm_num, by norm_num [transformWithinTol, atol, rtol],
          rfl⟩)).1 (by norm_num)).2.2.2.1,
   ((C7_single_mismatch ⟨3, ⟨1, 0, 0, 0, 1, 0⟩, (5, 6)⟩
        ⟨4, ⟨1, 0, 0, 0, 1, 0⟩, (5, 6)⟩
        (Or.inl ⟨by norm_num, by norm_num [transformWithinTol, atol, rtol],
          rfl⟩)).1 (by norm_num)).2.2.2.2.2.2⟩

end Alignment

namespace Reproject

/-- Claim C3: the persisted output raster's metadata declares the
caller-specified sentinel `-9999.0` as its no-data value, and every output
pixel whose back-mapped location falls outside the source raster's valid
extent holds exactly that sentinel. -/
theorem C3_nodata (master : Profile) (slave : SrcRaster) (row col : ℕ)
    (hout : ¬ insideSource slave (backMapped slave master.transform row col)) :
    (runReproject master slave).profile.nodata = some OUTPUT_NODATA_VALUE
      ∧ OUTPUT_NODATA_VALUE = -9999
      ∧ (runReproject master slave).data row col = OUTPUT_NODATA_VALUE := by
  refine ⟨rfl, rfl, ?_⟩
  show reprojectPixel slave master.transform OUTPUT_NODATA_VALUE row col = _
  unfold reprojectPixel
  rw [if_neg hout]

theorem C3_nodata_witness :
    ¬ insideSource ⟨1, 1, ⟨1, 0, 0, 0, 1, 0⟩, fun _ _ => 7⟩
        (backMapped ⟨1, 1, ⟨1, 0, 0, 0, 1, 0⟩, fun _ _ => 7⟩
          ⟨1, 0, 0, 0, 1, 0⟩ 0 5)
      ∧ (runReproject ⟨0, ⟨1, 0, 0, 0, 1, 0⟩, 10, 10, 3, "uint16", none⟩
          ⟨1, 1, ⟨1, 0, 0, 0, 1, 0⟩, fun _ _ => 7⟩).data 0 5
        = OUTPUT_NODATA_VALUE :=
  ⟨by norm_num [insideSource, backMapped, Affine.fwd, Affine.inverse,
      Affine.det],
   (C3_nodata ⟨0, ⟨1, 0, 0, 0, 1, 0⟩, 10, 10, 3, "uint16", none⟩
      ⟨1, 1, ⟨1, 0, 0, 0, 1, 0⟩, fun _ _ => 7⟩ 0 5
      (by norm_num [insideSource, backMapped, Affine.fwd, Affine.inverse,
        Affine.det])).2.2⟩

end Reproject

namespace Cvt2gray

/-- Claim C9: for every source image, the Template-Aligned Grayscale
Converter produces a single-channel image whose pixel dimensions exactly
equal the template raster's `(rows, columns)`. -/
theorem C9_output_dimensions (img : PImage) (template_shape : ℕ × ℕ) :
    (align_and_convert img template_shape).height = template_shape.1
      ∧ (align_and_convert img template_shape).width = template_shape.2
      ∧ (align_and_convert img template_shape).channels = 1 :=
  ⟨rfl, rfl, rfl⟩

end Cvt2gray

end LMMs4SDB
